import Mathlib

/-!
Verification development for the comic-archive repackaging pipeline of
eljef/python_eljef_media.

The Python sources embedded here are
  src/eljef/media/lib/comic.py            (library: classify, filter, copy,
                                           metadata rewrite, compress)
  src/eljef/media/cli/__comic_fix_main__.py (orchestrator: path planning,
                                           page selection, run sequencing)

Conventions of the embedding:
* Python strings are Lean `String`; Python string comparison is the
  lexicographic code-point order, modelled executably by `lexLtChars`.
* `sorted` on a list of strings is modelled by a stable comparison sort
  with respect to that order (`pySorted`).  String order is antisymmetric,
  so every comparison sort produces the same output as Python's.
* Exceptions are modelled by `Except PyError` results or by an optional
  `PyError` field when the partial effects before the raise matter.
* Filesystem effects of the orchestrator are modelled as a trace of
  `Event`s; the external environment (extractor outcome, directory
  listing, image decodability, file existence) is an `Env` record.
-/

namespace Comic

/-- Exception classes raised by the modelled Python code. -/
inductive PyError where
  | valueError
  | indexError
  | calledProcessError
  | fileNotFound (path : String)
  | imageError (path : String)
  deriving DecidableEq, Repr

/-- Lexicographic (code point) strict comparison of two character lists:
the order Python uses to compare strings. -/
def lexLtChars : List Char → List Char → Bool
  | [], [] => false
  | [], _ :: _ => true
  | _ :: _, [] => false
  | a :: as, b :: bs => if a < b then true else if b < a then false else lexLtChars as bs

/-- Python `a <= b` on strings: not (b < a) in the lexicographic order. -/
def pyLe (a b : String) : Bool := ! lexLtChars b.data a.data

/-- Python `sorted` on a list of strings.  Python's sort is a stable
comparison sort for the lexicographic order; since that order is
antisymmetric on strings, insertion sort computes the same output. -/
def pySorted (l : List String) : List String :=
  l.insertionSort (fun a b => pyLe a b = true)

/-- Python `s.rsplit(sep, 1)` followed by a 2-element unpacking: splits at
the last occurrence of `sep`; `none` when `sep` does not occur (the
unpacking then raises ValueError). -/
def rsplitOnce (sep : Char) (s : String) : Option (String × String) :=
  match s.data.reverse.span (fun c => c ≠ sep) with
  | (_, []) => none
  | (suf, _ :: pre) => some (⟨pre.reverse⟩, ⟨suf.reverse⟩)

/-- `os.path.basename`: the part after the last slash. -/
def basename (p : String) : String :=
  match rsplitOnce '/' p with
  | none => p
  | some (_, b) => b

/-- `os.path.dirname`: the part before the last slash (simplified: a
path with no slash, or a single leading slash, yields the empty string). -/
def dirname (p : String) : String :=
  match rsplitOnce '/' p with
  | none => ""
  | some (d, _) => d

/-- `os.path.join` for the shapes used here (second component relative). -/
def joinPath (a b : String) : String := if a = "" then b else a ++ "/" ++ b

/-- The decimal digit character for a digit value (9 for anything larger). -/
def digitChar : Nat → Char
  | 0 => '0' | 1 => '1' | 2 => '2' | 3 => '3' | 4 => '4'
  | 5 => '5' | 6 => '6' | 7 => '7' | 8 => '8' | _ => '9'

/-- Fixed-width decimal writing of `n`: `w` digit characters, most
significant first. -/
def padDec : Nat → Nat → List Char
  | 0, _ => []
  | w + 1, n => digitChar (n / 10 ^ w) :: padDec w (n % 10 ^ w)

/-- Number of decimal digits of `n` (fuel-based, structural). -/
def numDigitsAux : Nat → Nat → Nat
  | 0, _ => 1
  | f + 1, n => if n < 10 then 1 else numDigitsAux f (n / 10) + 1

/-- Python `f"{n:05d}"`: `n` in decimal, left padded with zeros to at
least five characters. -/
def py05d (n : Nat) : String :=
  if n < 100000 then ⟨padDec 5 n⟩ else ⟨padDec (numDigitsAux n n) n⟩

/-- The new file name `f"P{n:05d}.{ext}"` given to page number `n`. -/
def pageName (n : Nat) (ext : String) : String := "P" ++ py05d n ++ "." ++ ext

/-- comic.py: name of the metadata XML file for a comic book. -/
def COMIC_INFO_XML : String := "ComicInfo.xml"

/-- comic.py: `_DEFAULT_IMAGE_TYPE`. -/
def DEFAULT_IMAGE_TYPE : String := "jpg"

/-- comic.py: `_SUPPORTED_IMAGE_TYPES` — exactly as written in the source,
including the entry `"web"`. -/
def SUPPORTED_IMAGE_TYPES : List String := ["jpg", "png", "web"]

/-- __comic_fix_args__.py: the `choices` set of `--convert-images` (and of
`--copy-only`), in its written order. -/
def CONVERT_IMAGES_CHOICES : List String := ["jpg", "png", "webp"]

/-- Python truthiness of an optional string argument. -/
def truthy (s : Option String) : Bool := s.getD "" ≠ ""

/-- comic.py `Images` namedtuple: per-format relative paths plus the
count of image types found. -/
structure Images where
  jpg : List String
  png : List String
  webp : List String
  types : Nat
  deriving DecidableEq, Repr

/-- comic.py `filter_pages`: keeps a file when the character before its
extension separator is a decimal digit.  `file.rsplit('.', 1)` raises
ValueError when the name holds no dot, and `name[-1]` raises IndexError
when nothing precedes the dot; both propagate. -/
def filter_pages : List String → Except PyError (List String)
  | [] => .ok []
  | f :: fs =>
    match rsplitOnce '.' f with
    | none => .error .valueError
    | some (name, _) =>
      match name.data.getLast? with
      | none => .error .indexError
      | some c =>
        if c.isDigit then
          match filter_pages fs with
          | .error e => .error e
          | .ok rest => .ok (f :: rest)
        else
          filter_pages fs

/-- Modelled from the spec: `eljef.core.fops.list_files_by_extension`, a
helper from the external eljef.core package (not part of this
repository).  Per the spec's Image Classifier section it is a flat
listing of the directory restricted to names carrying the given
extension (case-sensitive match on the extension). -/
def list_files_by_extension (dir : List String) (ext : String) : List String :=
  dir.filter (fun f =>
    match rsplitOnce '.' f with
    | none => false
    | some (_, e) => e = ext)

/-- comic.py `get_images`: the jpeg bucket (four case variants, in the
source's order). -/
def jpegList (dir : List String) : List String :=
  list_files_by_extension dir "jpg" ++ list_files_by_extension dir "JPG" ++
  list_files_by_extension dir "jpeg" ++ list_files_by_extension dir "JPEG"

/-- comic.py `get_images`: the png bucket. -/
def pngList (dir : List String) : List String :=
  list_files_by_extension dir "png" ++ list_files_by_extension dir "PNG"

/-- comic.py `get_images`: the webp bucket. -/
def webpList (dir : List String) : List String :=
  list_files_by_extension dir "webp" ++ list_files_by_extension dir "WEBP"

/-- comic.py `get_images`: the `types` counter, incremented once for each
non-empty bucket, computed from the unfiltered buckets. -/
def typesCount (dir : List String) : Nat :=
  (if (jpegList dir).length > 0 then 1 else 0) +
  (if (pngList dir).length > 0 then 1 else 0) +
  (if (webpList dir).length > 0 then 1 else 0)

/-- comic.py `get_images`: lists the three buckets, counts the non-empty
ones before filtering, then optionally filters each bucket (jpeg first,
then png, then webp, so a filtering exception on an earlier bucket
propagates first). -/
def get_images (dir : List String) (filter_images : Bool) : Except PyError Images :=
  if filter_images then
    match filter_pages (jpegList dir) with
    | .error e => .error e
    | .ok j =>
      match filter_pages (pngList dir) with
      | .error e => .error e
      | .ok p =>
        match filter_pages (webpList dir) with
        | .error e => .error e
        | .ok w => .ok ⟨j, p, w, typesCount dir⟩
  else
    .ok ⟨jpegList dir, pngList dir, webpList dir, typesCount dir⟩

/-- Result of `copy_images`: the copy/convert operations performed, in
order (source relative path, new file name), and the exception that
interrupted the loop, if any.  On an interruption the operations already
performed stand (their files exist), later ones were never attempted. -/
structure CopyResult where
  ops : List (String × String)
  err : Option PyError
  deriving DecidableEq, Repr

/-- comic.py `copy_images` loop body: walks the (already sorted) image
list with the `current_page` counter, producing `P{n:05d}.{ext}` names;
a source file the image library cannot read or copy raises and stops the
loop. -/
def copyLoop (imageFails : String → Bool) (newExt : String) :
    List String → Nat → CopyResult
  | [], _ => ⟨[], none⟩
  | f :: fs, n =>
    if imageFails f then ⟨[], some (.imageError f)⟩
    else
      let r := copyLoop imageFails newExt fs (n + 1)
      ⟨(f, pageName n newExt) :: r.ops, r.err⟩

/-- comic.py `copy_images`: target extension is `convert_to` when truthy,
else the default; an unsupported target raises ValueError before any file
is touched; otherwise the images are processed in Python `sorted` order
and renumbered from 0. -/
def copy_images (images : List String) (convert_to : Option String)
    (imageFails : String → Bool) : CopyResult :=
  let new_ext := if truthy convert_to then convert_to.getD "" else DEFAULT_IMAGE_TYPE
  if SUPPORTED_IMAGE_TYPES.contains new_ext then
    copyLoop imageFails new_ext (pySorted images) 0
  else
    ⟨[], some .valueError⟩

/-- One `Page` entry written into the rewritten ComicInfo `Pages` list:
the attributes `@Image` (ordinal as string), `@ImageWidth`,
`@ImageHeight`, and whether `@Type = FrontCover` was set. -/
structure PageEntry where
  image : String
  imageWidth : String
  imageHeight : String
  isFrontCover : Bool
  deriving DecidableEq, Repr

/-- Result of `copy_info`: whether the NoComicInfo sentinel was touched,
whether a new manifest file was written, the rebuilt `Pages` list when
the manifest's root element was present (`none` when the manifest was
copied without rebuilding pages), and the returned file list. -/
structure InfoResult where
  touchedNoInfo : Bool
  wroteManifest : Bool
  manifestPages : Option (List PageEntry)
  files : List String
  deriving DecidableEq, Repr

/-- comic.py `copy_info` page loop: one entry per page, in order, with
`@Image` set to the running `page_count` and the dimensions read from the
page file (`dims`). -/
def buildPageEntries (dims : String → Nat × Nat) :
    List String → Nat → List PageEntry
  | [], _ => []
  | p :: ps, n =>
    ⟨toString n, toString (dims p).1, toString (dims p).2, false⟩ ::
      buildPageEntries dims ps (n + 1)

/-- comic.py `copy_info`: when the original manifest is absent, touch the
sentinel and return `pages` unchanged; when its parsed document has the
ComicInfo root, rebuild the `Pages` list over Python-sorted `pages` and
set `@Type = FrontCover` on entry 0 — an empty rebuilt list makes that
subscript raise IndexError; in either manifest-present case the new
manifest is written and its name appended to the returned list. -/
def copy_info (origInfoExists hasComicInfoRoot : Bool)
    (dims : String → Nat × Nat) (pages : List String) :
    Except PyError InfoResult :=
  if !origInfoExists then
    .ok ⟨true, false, none, pages⟩
  else if hasComicInfoRoot then
    match buildPageEntries dims (pySorted pages) 0 with
    | [] => .error .indexError
    | e :: es => .ok ⟨false, true, some ({ e with isFrontCover := true } :: es), pages ++ [COMIC_INFO_XML]⟩
  else
    .ok ⟨false, true, none, pages ++ [COMIC_INFO_XML]⟩

/-- State of the archive file at the target path after `compress`: the
member list of the zip file now sitting at that path, and the exception
that interrupted writing, if any.  `ZipFile(comic_book, 'w')` creates the
file at the target path immediately, so the file is present even when an
exception interrupts the member loop. -/
structure ZipResult where
  entries : List String
  err : Option PyError
  deriving DecidableEq, Repr

/-- comic.py `compress` member loop: adds files in the given order; a
missing input file raises, the context manager then closes the zip with
the members written so far. -/
def zipWriteAll (existsF : String → Bool) : List String → ZipResult
  | [] => ⟨[], none⟩
  | f :: fs =>
    if existsF f then
      let r := zipWriteAll existsF fs
      ⟨f :: r.entries, r.err⟩
    else
      ⟨[], some (.fileNotFound f)⟩

/-- comic.py `compress`: writes a store-only zip directly at the final
`comic_book` path, adding `file_list` in Python `sorted` order. -/
def compress (existsF : String → Bool) (file_list : List String) : ZipResult :=
  zipWriteAll existsF (pySorted file_list)

/-- The three image formats the CLI accepts for `--copy-only` (argparse
`choices` validates membership before `main` runs). -/
inductive Fmt where
  | jpg
  | png
  | webp
  deriving DecidableEq, Repr

/-- `getattr(images, copy_only)` for the three field names the CLI can
supply. -/
def Images.bucket (i : Images) : Fmt → List String
  | .jpg => i.jpg
  | .png => i.png
  | .webp => i.webp

/-- __comic_fix_main__.py `_get_image_list`: the page-selection decision. -/
def get_image_list (images : Images) (allow_multi : Bool)
    (copy_only : Option Fmt) : List String :=
  if allow_multi then images.jpg ++ images.png ++ images.webp
  else
    match copy_only with
    | some fmt => images.bucket fmt
    | none =>
      if images.webp.length > 0 then images.webp
      else if images.png.length > 0 then images.png
      else images.jpg

/-- The Page Selector exactly as the specification words it: first-match
decision order — allowMultiple concatenates jpeg + png + webp in that
fixed order regardless of counts; else a set copyOnlyFormat returns
exactly that bucket (possibly empty); else prefer webp when non-empty,
else png when non-empty, else jpeg (possibly empty). -/
def selectSpec (images : Images) (allowMultiple : Bool)
    (copyOnlyFormat : Option Fmt) : List String :=
  if allowMultiple then images.jpg ++ images.png ++ images.webp
  else
    match copyOnlyFormat with
    | some fmt => images.bucket fmt
    | none =>
      if images.webp ≠ [] then images.webp
      else if images.png ≠ [] then images.png
      else images.jpg

/-- __comic_fix_main__.py `_BookPaths` namedtuple. -/
structure BookPaths where
  file : String
  extracted : String
  info : String
  deriving DecidableEq, Repr

/-- __comic_fix_main__.py `_Paths` namedtuple. -/
structure Paths where
  base : String
  ext : String
  name : String
  no_info : String
  new : BookPaths
  orig : BookPaths
  temp : String
  deriving DecidableEq, Repr

/-- `tempfile.gettempdir()` as on the target platform. -/
def TEMP_DIR : String := "/tmp"

/-- Modelled from the spec: the program NAME constant comes from
`eljef.media.cli.__comic_fix_vars__`, a module absent from the sources;
the spec's CLI section names the program `ej-comic-fix`. -/
def NAME : String := "ej-comic-fix"

/-- __comic_fix_main__.py `_get_paths`: derives every path of a run from
the comic file path; a basename without a dot makes the 2-element
unpacking of `rsplit` raise ValueError. -/
def get_paths (comic_file : String) : Except PyError Paths :=
  let base := dirname comic_file
  match rsplitOnce '.' (basename comic_file) with
  | none => .error .valueError
  | some (name, ext) =>
    let temp := joinPath (joinPath TEMP_DIR NAME) name
    let new_extracted := joinPath temp "new"
    let orig_extracted := joinPath temp "orig"
    .ok { base := base, ext := ext, name := name,
          no_info := comic_file ++ ".NoComicInfo",
          new := ⟨joinPath base (name ++ ".cbz"), new_extracted,
                  joinPath new_extracted COMIC_INFO_XML⟩,
          orig := ⟨joinPath base (name ++ ".orig." ++ ext), orig_extracted,
                   joinPath orig_extracted COMIC_INFO_XML⟩,
          temp := temp }

/-- Filesystem actions of a run, in program order. -/
inductive Event where
  | deleteTree (path : String)
  | makeDirs (path : String)
  | runExtractor (archive dest : String)
  | copyPage (src dst : String)
  | renameFile (src dst : String)
  | touchFile (path : String)
  | writeFile (path : String)
  | writeArchive (path : String)
  deriving DecidableEq, Repr

/-- How a run ends: normal return, `SystemExit(1)` from `_clean_exit`
with a message, or an uncaught exception. -/
inductive Outcome where
  | ok
  | sysExit (msg : String)
  | exn (e : PyError)
  deriving DecidableEq, Repr

/-- The external environment of one run: whether the extraction tool
succeeds, the listing of the extracted directory, which source images the
image library fails on, whether the parsed manifest has the ComicInfo
root, the dimensions read from page files, and which files exist when
compression writes them. -/
structure Env where
  extractOk : Bool
  dirFiles : List String
  imageFails : String → Bool
  hasComicInfoRoot : Bool
  dims : String → Nat × Nat
  existsAtCompress : String → Bool

/-- The keyword arguments `main` receives from `cli_main` (argparse has
already validated the format choices). -/
structure Flags where
  copy_only : Option Fmt
  img_conv : Option String
  img_filter : Bool
  img_multi : Bool

/-- `_create_temp` followed by `comic.extract`: delete the temp tree,
create both working directories, run the external extractor on the
archive. -/
def startEvs (comic_file : String) (paths : Paths) : List Event :=
  [.deleteTree paths.temp, .makeDirs paths.new.extracted,
   .makeDirs paths.orig.extracted, .runExtractor comic_file paths.orig.extracted]

/-- The copy/convert events of `comic.copy_images`: each operation reads
under the original working directory and writes under the new one. -/
def copyEvs (paths : Paths) (ops : List (String × String)) : List Event :=
  ops.map (fun op =>
    Event.copyPage (joinPath paths.orig.extracted op.1)
                   (joinPath paths.new.extracted op.2))

/-- The write event of `comic.copy_info`: touching the sentinel when the
original manifest was absent, else writing the new manifest. -/
def infoEvs (paths : Paths) (ir : InfoResult) : List Event :=
  if ir.touchedNoInfo then [Event.touchFile paths.no_info]
  else [Event.writeFile paths.new.info]

/-- __comic_fix_main__.py `main`, final statements: after the rename and
`comic.copy_info` succeeded, `comic.compress` writes the new archive and
the closing `_clean_exit(paths)` deletes the temp tree; a compression
exception propagates without that cleanup. -/
def runCompress (env : Env) (paths : Paths) (tr1 : List Event) (ir : InfoResult) :
    List Event × Outcome :=
  match (compress env.existsAtCompress ir.files).err with
  | some e => (tr1 ++ infoEvs paths ir ++ [.writeArchive paths.new.file], .exn e)
  | none => (tr1 ++ infoEvs paths ir ++
      [.writeArchive paths.new.file, .deleteTree paths.temp], .ok)

/-- __comic_fix_main__.py `main`, after `comic.copy_images` succeeded:
`os.rename` moves the original aside, then `comic.copy_info` runs; its
exception propagates without cleanup. -/
def runInfo (env : Env) (comic_file : String) (paths : Paths) (cres : CopyResult) :
    List Event × Outcome :=
  match copy_info (env.dirFiles.contains COMIC_INFO_XML) env.hasComicInfoRoot env.dims
      (cres.ops.map (fun op => op.2)) with
  | .error e => (startEvs comic_file paths ++ copyEvs paths cres.ops ++
      [.renameFile comic_file paths.orig.file], .exn e)
  | .ok ir => runCompress env paths
      (startEvs comic_file paths ++ copyEvs paths cres.ops ++
       [.renameFile comic_file paths.orig.file]) ir

/-- __comic_fix_main__.py `main`, the `comic.copy_images` call: a copy
or conversion exception propagates without cleanup and before the
rename; on success the rename and the rest of the run follow. -/
def runCopy (env : Env) (comic_file : String) (flags : Flags) (paths : Paths)
    (selected : List String) : List Event × Outcome :=
  match (copy_images selected flags.img_conv env.imageFails).err with
  | some e => (startEvs comic_file paths ++
      copyEvs paths (copy_images selected flags.img_conv env.imageFails).ops, .exn e)
  | none => runInfo env comic_file paths (copy_images selected flags.img_conv env.imageFails)

/-- __comic_fix_main__.py `main`, the validation block: the three
`_clean_exit` aborts (no images; ambiguous formats; empty copy-only
selection), in source order, then the copy step. -/
def runValidate (env : Env) (comic_file : String) (flags : Flags) (paths : Paths)
    (images : Images) : List Event × Outcome :=
  if images.types == 0 then
    (startEvs comic_file paths ++ [.deleteTree paths.temp],
     .sysExit "no image files found")
  else if images.types > 1 && !flags.copy_only.isSome &&
      !(truthy flags.img_conv) && !flags.img_multi then
    (startEvs comic_file paths ++ [.deleteTree paths.temp],
     .sysExit "multiple image formats found but not explicitly allowed and conversion not specified")
  else if flags.copy_only.isSome &&
      (get_image_list images flags.img_multi flags.copy_only).isEmpty then
    (startEvs comic_file paths ++ [.deleteTree paths.temp],
     .sysExit "copy only files were set to be copied, but none were found")
  else runCopy env comic_file flags paths
    (get_image_list images flags.img_multi flags.copy_only)

/-- __comic_fix_main__.py `main`: the run orchestrator, as the trace of
filesystem actions it performs together with its outcome.  The sequencing
and every abort condition follow the source line by line; `_clean_exit`
is the `deleteTree paths.temp` event followed by `SystemExit` when a
message is given.  Stages are split into the `run*` helpers above in
source order: path planning, temp setup plus extraction, classification,
validation, copy, rename plus metadata, compression plus final cleanup. -/
def main (env : Env) (comic_file : String) (flags : Flags) :
    List Event × Outcome :=
  match get_paths comic_file with
  | .error e => ([], .exn e)
  | .ok paths =>
    if !env.extractOk then (startEvs comic_file paths, .exn .calledProcessError)
    else
      match get_images env.dirFiles flags.img_filter with
      | .error e => (startEvs comic_file paths, .exn e)
      | .ok images => runValidate env comic_file flags paths images

/-- Whether an event writes to, creates, renames or deletes the file at
path `f` (reading is not touching). -/
def touches (f : String) : Event → Bool
  | .deleteTree p => p = f
  | .makeDirs p => p = f
  | .runExtractor _ dest => dest = f
  | .copyPage _ dst => dst = f
  | .renameFile s d => s = f || d = f
  | .touchFile p => p = f
  | .writeFile p => p = f
  | .writeArchive p => p = f

/-- Character-list prefix test (executable). -/
def charsPrefix : List Char → List Char → Bool
  | [], _ => true
  | _ :: _, [] => false
  | a :: as, b :: bs => if a = b then charsPrefix as bs else false

/-- String prefix test built on `charsPrefix`. -/
def strPrefix (pre s : String) : Bool := charsPrefix pre.data s.data

/-- Whether the temp working tree exists after the trace ran: deleting
the temp root removes it, creating a directory under the temp root
(re)creates it (`os.makedirs` creates parents). -/
def tempTreeAlive (temp : String) (tr : List Event) : Bool :=
  tr.foldl (fun alive ev =>
    match ev with
    | .deleteTree p => if p = temp then false else alive
    | .makeDirs p => if strPrefix temp p then true else alive
    | _ => alive) false

/-! Helper lemmas: the executable comparison agrees with the
lexicographic order on strings. -/

theorem lexLtChars_iff (x : List Char) :
    ∀ y : List Char, lexLtChars x y = true ↔ List.Lex (· < ·) x y := by
  induction x with
  | nil =>
    intro y
    cases y with
    | nil =>
      simp only [lexLtChars, Bool.false_eq_true, false_iff]
      exact List.Lex.not_nil_right _ _
    | cons b bs =>
      simp only [lexLtChars, true_iff]
      exact List.Lex.nil
  | cons a as ih =>
    intro y
    cases y with
    | nil =>
      simp only [lexLtChars, Bool.false_eq_true, false_iff]
      exact List.Lex.not_nil_right _ _
    | cons b bs =>
      simp only [lexLtChars]
      rcases lt_trichotomy a b with h | h | h
      · simp only [if_pos h, true_iff]
        exact List.Lex.rel h
      · subst h
        simp only [lt_irrefl, if_false]
        rw [ih bs]
        constructor
        · exact List.Lex.cons
        · intro hl
          cases hl with
          | cons h => exact h
          | rel h => exact absurd h (lt_irrefl a)
      · have h1 : ¬ a < b := not_lt_of_gt h
        simp only [if_neg h1, if_pos h, Bool.false_eq_true, false_iff]
        intro hl
        cases hl with
        | cons h2 => exact absurd h (lt_irrefl a)
        | rel h2 => exact absurd h2 h1

theorem lexLtChars_str (a b : String) : lexLtChars a.data b.data = true ↔ a < b := by
  rw [lexLtChars_iff]
  exact String.lt_iff_toList_lt.symm

theorem pyLe_iff (a b : String) : pyLe a b = true ↔ a ≤ b := by
  constructor
  · intro h
    refine not_lt.mp (fun hba => ?_)
    rw [← lexLtChars_str] at hba
    simp [pyLe, hba] at h
  · intro h
    have hf : lexLtChars b.data a.data = false := by
      rcases Bool.eq_false_or_eq_true (lexLtChars b.data a.data) with ht | hf
      · exact absurd ((lexLtChars_str b a).mp ht) (not_lt.mpr h)
      · exact hf
    simp [pyLe, hf]

instance : IsTotal String (fun a b => pyLe a b = true) := by
  constructor
  intro a b
  rcases le_total a b with h | h
  · exact Or.inl ((pyLe_iff a b).mpr h)
  · exact Or.inr ((pyLe_iff b a).mpr h)

instance : IsTrans String (fun a b => pyLe a b = true) := by
  constructor
  intro a b c hab hbc
  exact (pyLe_iff a c).mpr (le_trans ((pyLe_iff a b).mp hab) ((pyLe_iff b c).mp hbc))

theorem pySorted_sorted (l : List String) :
    List.Pairwise (fun a b : String => a ≤ b) (pySorted l) := by
  have h := List.sorted_insertionSort (fun a b => pyLe a b = true) l
  exact h.imp (fun hab => (pyLe_iff _ _).mp hab)

theorem pySorted_perm (l : List String) : (pySorted l).Perm l :=
  List.perm_insertionSort _ l

theorem pySorted_of_sorted {l : List String}
    (h : List.Pairwise (fun a b : String => a ≤ b) l) : pySorted l = l :=
  List.Sorted.insertionSort_eq (h.imp (fun hab => (pyLe_iff _ _).mpr hab))

/-! Claim theorems. -/

/-- Claim C4: page selection follows the fixed first-match decision
order: allowMultiple concatenates the jpeg, png and webp buckets in that
fixed order regardless of counts; otherwise a set copy-only format
returns exactly that bucket (possibly empty); otherwise the webp bucket
when non-empty, else the png bucket when non-empty, else the jpeg bucket
(possibly empty).  The code's `_get_image_list` equals the spec's
decision procedure on every input. -/
theorem page_selection_matches_spec (images : Images) (allow_multi : Bool)
    (copy_only : Option Fmt) :
    get_image_list images allow_multi copy_only =
      selectSpec images allow_multi copy_only := by
  unfold get_image_list selectSpec
  cases allow_multi with
  | true => rfl
  | false =>
    simp only [Bool.false_eq_true, if_false]
    cases copy_only with
    | some fmt => rfl
    | none =>
      by_cases hw : images.webp = []
      · by_cases hp : images.png = []
        · simp [hw, hp]
        · simp [hw, hp, List.length_pos]
      · simp [hw, List.length_pos]

/-- Claim C7 (code bug): the CLI offers jpg, png and webp as
`--convert-images` targets, but the library's supported-type set holds
the misspelt entry "web", so the target "webp" is rejected with
ValueError by `copy_images` while jpg and png are accepted; with no
conversion target every output name gets the default jpg extension
regardless of source format. -/
theorem cli_webp_target_rejected :
    copy_images ["a.webp"] (some "webp") (fun _ => false) = ⟨[], some .valueError⟩ ∧
    CONVERT_IMAGES_CHOICES.contains "webp" = true ∧
    SUPPORTED_IMAGE_TYPES.contains "webp" = false ∧
    (copy_images ["a.jpg"] (some "jpg") (fun _ => false)).err = none ∧
    (copy_images ["a.png"] (some "png") (fun _ => false)).err = none ∧
    (copy_images ["x.png"] none (fun _ => false)).ops = [("x.png", "P00000.jpg")] :=
  ⟨rfl, rfl, rfl, rfl, rfl, rfl⟩

/-- Claim C8 (code bug): the page-filter digit check raises instead of
dropping degenerate names: a name with no characters before the
extension separator raises IndexError from the subscript, and an empty
name raises ValueError from the 2-element unpacking of rsplit; an
ordinary non-page name is dropped without an exception. -/
theorem filter_pages_raises_on_degenerate_names :
    filter_pages [".jpg"] = .error .indexError ∧
    filter_pages [""] = .error .valueError ∧
    filter_pages ["page1.jpg", "cover.jpg"] = .ok ["page1.jpg"] :=
  ⟨rfl, rfl, rfl⟩

/-! Compression: helper lemmas for claim C2. -/

theorem zipWriteAll_entries (existsF : String → Bool) (l : List String) :
    (zipWriteAll existsF l).entries = l.takeWhile existsF := by
  induction l with
  | nil => rfl
  | cons f fs ih =>
    by_cases h : existsF f = true
    · simp [zipWriteAll, List.takeWhile_cons, h, ih]
    · simp [zipWriteAll, List.takeWhile_cons, h]

theorem zipWriteAll_err (existsF : String → Bool) (l : List String) :
    (zipWriteAll existsF l).err = none ↔ ∀ f ∈ l, existsF f = true := by
  induction l with
  | nil => simp [zipWriteAll]
  | cons f fs ih =>
    by_cases h : existsF f = true
    · simp [zipWriteAll, h, ih]
    · simp [zipWriteAll, h]

/-- Claim C2 counterexample: compressing a file list with one missing
file raises, yet the archive written directly at the final output path
is present and holds the members added before the raise — a partially
written archive is left visible at the final path, there is no staging
to a temporary name. -/
theorem compress_no_staging_cx :
    (compress (fun f => f != "b") ["b", "a"]).err = some (.fileNotFound "b") ∧
    (compress (fun f => f != "b") ["b", "a"]).entries = ["a"] :=
  ⟨rfl, rfl⟩

/-- Claim C2 amended: `compress` writes the store-only zip directly at
the final output path: the file at that path always exists afterwards
and holds exactly the longest all-existing prefix of the Python-sorted
input list, and the operation succeeds precisely when every input file
exists — so a missing input raises but leaves the partial archive at the
final path. -/
theorem compress_direct_final_path (existsF : String → Bool) (file_list : List String) :
    (compress existsF file_list).entries = (pySorted file_list).takeWhile existsF ∧
    ((compress existsF file_list).err = none ↔ ∀ f ∈ file_list, existsF f = true) := by
  constructor
  · exact zipWriteAll_entries existsF (pySorted file_list)
  · rw [compress, zipWriteAll_err]
    constructor
    · intro h f hf
      exact h f ((pySorted_perm file_list).mem_iff.mpr hf)
    · intro h f hf
      exact h f ((pySorted_perm file_list).mem_iff.mp hf)

/-- Claim C6 counterexample: on a directory holding a file named ".jpg"
the unfiltered classification returns a types value of 1, but the
filtered classification of the same directory raises IndexError in the
digit check instead of returning any types value, so filtering does not
yield the same types value on every directory. -/
theorem filtered_classification_raises_cx :
    get_images [".jpg"] true = .error .indexError ∧
    get_images [".jpg"] false = .ok ⟨[".jpg"], [], [], 1⟩ :=
  ⟨rfl, rfl⟩

/-- Claim C6 amended: the types value is the count of the three format
buckets that are non-empty before any filtering, and whenever the
filtered classification returns a value at all (filtering can instead
raise, see the counterexample) that value carries the same types count
as the unfiltered classification of the same directory. -/
theorem types_counted_before_filtering (dir : List String) :
    get_images dir false = .ok ⟨jpegList dir, pngList dir, webpList dir, typesCount dir⟩ ∧
    typesCount dir =
      (([jpegList dir, pngList dir, webpList dir].filter (fun l => !l.isEmpty)).length) ∧
    (∀ img : Images, get_images dir true = .ok img → img.types = typesCount dir) := by
  refine ⟨rfl, ?_, ?_⟩
  · unfold typesCount
    by_cases hj : jpegList dir = [] <;> by_cases hp : pngList dir = [] <;>
      by_cases hw : webpList dir = [] <;>
      simp [hj, hp, hw, List.length_pos, List.isEmpty_iff]
  · intro img h
    unfold get_images at h
    simp only [if_true] at h
    cases hj : filter_pages (jpegList dir) with
    | error e => simp [hj] at h
    | ok j =>
      cases hp : filter_pages (pngList dir) with
      | error e => simp [hj, hp] at h
      | ok p =>
        cases hw : filter_pages (webpList dir) with
        | error e => simp [hj, hp, hw] at h
        | ok w =>
          simp only [hj, hp, hw, Except.ok.injEq] at h
          rw [← h]

/-- Witness for claim C6's amended theorem at a concrete directory. -/
theorem types_counted_before_filtering_witness :
    get_images ["p1.jpg"] true = .ok ⟨["p1.jpg"], [], [], 1⟩ ∧
    Images.types ⟨["p1.jpg"], [], [], 1⟩ = typesCount ["p1.jpg"] :=
  ⟨rfl, (types_counted_before_filtering ["p1.jpg"]).2.2 ⟨["p1.jpg"], [], [], 1⟩ rfl⟩

/-! Renumbering: helper lemmas for claim C5. -/

theorem copyLoop_ok (newExt : String) (l : List String) :
    ∀ k : Nat, copyLoop (fun _ => false) newExt l k =
      ⟨l.mapIdx (fun i f => (f, pageName (k + i) newExt)), none⟩ := by
  induction l with
  | nil => intro k; rfl
  | cons f fs ih =>
    intro k
    have h1 : copyLoop (fun _ => false) newExt (f :: fs) k =
        ⟨(f, pageName k newExt) :: (copyLoop (fun _ => false) newExt fs (k + 1)).ops,
         (copyLoop (fun _ => false) newExt fs (k + 1)).err⟩ := rfl
    have harith : (fun i (g : String) => (g, pageName (k + (i + 1)) newExt)) =
        (fun i (g : String) => (g, pageName (k + 1 + i) newExt)) := by
      funext i g
      have he : k + (i + 1) = k + 1 + i := by omega
      rw [he]
    rw [h1, ih (k + 1)]
    simp only [List.mapIdx_cons, Nat.add_zero]
    rw [harith]

theorem mapIdx_pair_snd (g : Nat → String) (l : List String) :
    (l.mapIdx (fun i f => (f, g i))).map (fun op => op.2) =
      (List.range l.length).map g := by
  induction l generalizing g with
  | nil => rfl
  | cons f fs ih =>
    simp only [List.mapIdx_cons, List.map_cons, List.length_cons,
      List.range_succ_eq_map, List.map_map]
    rw [ih (fun i => g (i + 1))]
    rfl

/-- Claim C5: `copy_images` processes the selected paths in lexicographic
order of the full original path string (plain string sort: the sorted
list is ordered by the string order and is a permutation of the input,
and numeric-looking names are not compared numerically), assigns
zero-padded 5-digit ordinals from 0 so the i-th file in sorted order is
copied to `P<i padded>.<ext>`, and returns the new names in ordinal
order; in particular ["b.jpg", "a.jpg"] with no conversion yields
P00000.jpg from a.jpg and P00001.jpg from b.jpg. -/
theorem copy_images_lex_renumbering (images : List String) :
    (copy_images images none (fun _ => false)).err = none ∧
    (copy_images images none (fun _ => false)).ops =
      (pySorted images).mapIdx (fun i f => (f, pageName i "jpg")) ∧
    List.Pairwise (fun a b : String => a ≤ b) (pySorted images) ∧
    (pySorted images).Perm images ∧
    (copy_images images none (fun _ => false)).ops.map (fun op => op.2) =
      (List.range images.length).map (fun i => pageName i "jpg") ∧
    copy_images ["b.jpg", "a.jpg"] none (fun _ => false) =
      ⟨[("a.jpg", "P00000.jpg"), ("b.jpg", "P00001.jpg")], none⟩ ∧
    pySorted ["p10.jpg", "p9.jpg"] = ["p10.jpg", "p9.jpg"] := by
  have hci0 : copy_images images none (fun _ => false) =
      copyLoop (fun _ => false) "jpg" (pySorted images) 0 := rfl
  have hci : copy_images images none (fun _ => false) =
      ⟨(pySorted images).mapIdx (fun i f => (f, pageName i "jpg")), none⟩ := by
    rw [hci0, copyLoop_ok "jpg" (pySorted images) 0]
    simp only [Nat.zero_add]
  refine ⟨by rw [hci], by rw [hci], pySorted_sorted images, pySorted_perm images, ?_, by rfl, by rfl⟩
  rw [hci]
  have hlen : (pySorted images).length = images.length :=
    (pySorted_perm images).length_eq
  rw [mapIdx_pair_snd (fun i => pageName i "jpg") (pySorted images), hlen]

/-! Page-name ordering: helper lemmas for claim C9. -/

theorem digitChar_lt {a b : Nat} (hab : a < b) (hb : b ≤ 9) :
    digitChar a < digitChar b := by
  have ha : a ≤ 8 := by omega
  interval_cases a <;> interval_cases b <;> decide

theorem padDec_append_lex :
    ∀ (w : Nat) {i j : Nat} (s t : List Char), i < j → j < 10 ^ w →
      List.Lex (· < ·) (padDec w i ++ s) (padDec w j ++ t) := by
  intro w
  induction w with
  | zero =>
    intro i j s t hij hj
    simp only [pow_zero] at hj
    omega
  | succ w ih =>
    intro i j s t hij hj
    simp only [padDec, List.cons_append]
    have hpow : 0 < 10 ^ w := pow_pos (by norm_num) w
    have hjd : j / 10 ^ w < 10 := by
      rw [Nat.div_lt_iff_lt_mul hpow]
      calc j < 10 ^ (w + 1) := hj
        _ = 10 * 10 ^ w := by rw [pow_succ]; ring
    have hid : i / 10 ^ w ≤ j / 10 ^ w := Nat.div_le_div_right (le_of_lt hij)
    rcases lt_or_eq_of_le hid with h | h
    · exact List.Lex.rel (digitChar_lt h (by omega))
    · rw [h]
      apply List.Lex.cons
      refine ih s t ?_ (Nat.mod_lt _ hpow)
      have e1 := Nat.div_add_mod i (10 ^ w)
      have e2 := Nat.div_add_mod j (10 ^ w)
      rw [h] at e1
      omega

theorem pageName_data (n : Nat) (ext : String) (hn : n < 100000) :
    (pageName n ext).data = 'P' :: (padDec 5 n ++ ('.' :: ext.data)) := by
  have h5 : py05d n = ⟨padDec 5 n⟩ := by rw [py05d, if_pos hn]
  rw [pageName, h5]
  simp [String.data_append]

theorem pageName_lt {i j : Nat} (ext : String) (hij : i < j) (hj : j < 100000) :
    pageName i ext < pageName j ext := by
  rw [String.lt_iff_toList_lt]
  show List.Lex (· < ·) (pageName i ext).data (pageName j ext).data
  rw [pageName_data i ext (lt_trans hij hj), pageName_data j ext hj]
  refine List.Lex.cons (padDec_append_lex 5 _ _ hij ?_)
  have h10 : (10 : Nat) ^ 5 = 100000 := by norm_num
  omega

theorem pageNames_sorted (n : Nat) (ext : String) (hn : n ≤ 100000) :
    List.Pairwise (fun a b : String => a ≤ b)
      ((List.range n).map (fun i => pageName i ext)) := by
  rw [List.pairwise_map]
  refine (List.pairwise_lt_range n).imp_of_mem ?_
  intro a b ha hb hab
  exact le_of_lt (pageName_lt ext hab (lt_of_lt_of_le (List.mem_range.mp hb) hn))

theorem buildPageEntries_mapIdx (dims : String → Nat × Nat) (l : List String) :
    ∀ k : Nat, buildPageEntries dims l k =
      l.mapIdx (fun i p =>
        ⟨toString (k + i), toString (dims p).1, toString (dims p).2, false⟩) := by
  induction l with
  | nil => intro k; rfl
  | cons p ps ih =>
    intro k
    have h1 : buildPageEntries dims (p :: ps) k =
        ⟨toString k, toString (dims p).1, toString (dims p).2, false⟩ ::
          buildPageEntries dims ps (k + 1) := rfl
    have harith : (fun i (q : String) =>
          (⟨toString (k + (i + 1)), toString (dims q).1, toString (dims q).2, false⟩ : PageEntry)) =
        (fun i (q : String) =>
          (⟨toString (k + 1 + i), toString (dims q).1, toString (dims q).2, false⟩ : PageEntry)) := by
      funext i q
      have he : k + (i + 1) = k + 1 + i := by omega
      rw [he]
    rw [h1, ih (k + 1)]
    simp only [List.mapIdx_cons, Nat.add_zero]
    rw [harith]

/-- Claim C9: for a non-empty pages sequence exactly as the renumberer
produces it (`P00000.<ext>` through `P<n-1 padded>.<ext>`, a common
extension, at most 100000 pages so the ordinals stay 5-digit padded),
the rewritten manifest's page list gets exactly one entry per page in
the same order, the i-th entry carrying the ordinal string i — which is
also the ordinal embedded in the i-th filename — with the dimensions
read from that page's file, and only the first entry (ordinal 0)
flagged as the front cover. -/
theorem manifest_page_ordinals_match (n : Nat) (ext : String)
    (dims : String → Nat × Nat) (pages : List String)
    (hn : 0 < n) (hn2 : n ≤ 100000)
    (hpages : pages = (List.range n).map (fun i => pageName i ext)) :
    copy_info true true dims pages =
      .ok ⟨false, true,
        some (pages.mapIdx (fun i p =>
          ⟨toString i, toString (dims p).1, toString (dims p).2, decide (i = 0)⟩)),
        pages ++ [COMIC_INFO_XML]⟩ ∧
    (∀ i, i < n → pages.get? i = some (pageName i ext)) := by
  have hsorted : pySorted pages = pages := by
    rw [hpages]
    exact pySorted_of_sorted (pageNames_sorted n ext hn2)
  have hne : pages ≠ [] := by
    rw [hpages]
    intro hc
    have := congrArg List.length hc
    simp at this
    omega
  constructor
  · obtain ⟨p0, rest, hcons⟩ := List.exists_cons_of_ne_nil hne
    have hbuild := buildPageEntries_mapIdx dims pages 0
    simp only [Nat.zero_add] at hbuild
    have hstep : copy_info true true dims pages =
        match buildPageEntries dims (pySorted pages) 0 with
        | [] => .error .indexError
        | e :: es => .ok ⟨false, true, some ({ e with isFrontCover := true } :: es),
            pages ++ [COMIC_INFO_XML]⟩ := rfl
    rw [hstep, hsorted, hbuild, hcons]
    simp only [List.mapIdx_cons]
    have hfix : (fun i (q : String) =>
          (⟨toString (i + 1), toString (dims q).1, toString (dims q).2,
            decide (i + 1 = 0)⟩ : PageEntry)) =
        (fun i (q : String) =>
          (⟨toString (i + 1), toString (dims q).1, toString (dims q).2, false⟩ : PageEntry)) := by
      funext i q
      simp
    rw [hfix]
    simp
  · intro i hi
    rw [hpages]
    rw [List.get?_map]
    rw [List.get?_range hi]
    rfl

/-- Witness for claim C9's theorem: two pages with concrete dimensions. -/
theorem manifest_page_ordinals_match_witness :
    ((0 : Nat) < 2 ∧ 2 ≤ 100000 ∧
      ["P00000.jpg", "P00001.jpg"] = (List.range 2).map (fun i => pageName i "jpg")) ∧
    (copy_info true true (fun _ => (100, 200)) ["P00000.jpg", "P00001.jpg"] =
      .ok ⟨false, true,
        some (["P00000.jpg", "P00001.jpg"].mapIdx (fun i p =>
          ⟨toString i, toString ((fun _ => ((100 : Nat), (200 : Nat))) p).1,
           toString ((fun _ => ((100 : Nat), (200 : Nat))) p).2, decide (i = 0)⟩)),
        ["P00000.jpg", "P00001.jpg"] ++ [COMIC_INFO_XML]⟩ ∧
     (∀ i, i < 2 → ["P00000.jpg", "P00001.jpg"].get? i = some (pageName i "jpg"))) :=
  ⟨⟨by decide, by decide, by decide⟩,
   manifest_page_ordinals_match 2 "jpg" (fun _ => (100, 200)) ["P00000.jpg", "P00001.jpg"]
     (by decide) (by decide) (by decide)⟩

/-! The orchestrator's exit shapes: helper lemmas for claims C1, C3, C10. -/

/-- The image list `main` selects once classification succeeded. -/
def selectedOf (flags : Flags) (images : Images) : List String :=
  get_image_list images flags.img_multi flags.copy_only

/-- The `copy_images` result of the run for a classification result. -/
def cresOf (env : Env) (flags : Flags) (images : Images) : CopyResult :=
  copy_images (selectedOf flags images) flags.img_conv env.imageFails

/-- The `copy_info` result of the run for a copy result. -/
def infoOf (env : Env) (cres : CopyResult) : Except PyError InfoResult :=
  copy_info (env.dirFiles.contains COMIC_INFO_XML) env.hasComicInfoRoot env.dims
    (cres.ops.map (fun op => op.2))

theorem main_eq_extract_fail (env : Env) (cf : String) (flags : Flags) (paths : Paths)
    (hp : get_paths cf = .ok paths) (he : env.extractOk = false) :
    main env cf flags = (startEvs cf paths, .exn .calledProcessError) := by
  unfold main
  rw [hp, he]
  rfl

theorem main_eq_classify_fail (env : Env) (cf : String) (flags : Flags) (paths : Paths)
    (e : PyError) (hp : get_paths cf = .ok paths) (he : env.extractOk = true)
    (hgi : get_images env.dirFiles flags.img_filter = .error e) :
    main env cf flags = (startEvs cf paths, .exn e) := by
  unfold main
  rw [hp, he, hgi]
  rfl

theorem main_eq_runValidate (env : Env) (cf : String) (flags : Flags) (paths : Paths)
    (images : Images) (hp : get_paths cf = .ok paths) (he : env.extractOk = true)
    (hgi : get_images env.dirFiles flags.img_filter = .ok images) :
    main env cf flags = runValidate env cf flags paths images := by
  unfold main
  rw [hp, he, hgi]
  rfl

theorem runValidate_shapes (env : Env) (cf : String) (flags : Flags) (paths : Paths)
    (images : Images) :
    (∃ m, runValidate env cf flags paths images =
      (startEvs cf paths ++ [Event.deleteTree paths.temp], .sysExit m)) ∨
    runValidate env cf flags paths images =
      runCopy env cf flags paths (get_image_list images flags.img_multi flags.copy_only) := by
  unfold runValidate
  cases h0 : (images.types == 0) with
  | true => exact Or.inl ⟨_, rfl⟩
  | false =>
    cases h1 : (images.types > 1 && !flags.copy_only.isSome &&
        !(truthy flags.img_conv) && !flags.img_multi) with
    | true => exact Or.inl ⟨_, rfl⟩
    | false =>
      cases h2 : (flags.copy_only.isSome &&
          (get_image_list images flags.img_multi flags.copy_only).isEmpty) with
      | true => exact Or.inl ⟨_, rfl⟩
      | false => exact Or.inr rfl

theorem runCopy_shapes (env : Env) (cf : String) (flags : Flags) (paths : Paths)
    (selected : List String) :
    (∃ e, (copy_images selected flags.img_conv env.imageFails).err = some e ∧
      runCopy env cf flags paths selected =
        (startEvs cf paths ++
          copyEvs paths (copy_images selected flags.img_conv env.imageFails).ops, .exn e)) ∨
    ((copy_images selected flags.img_conv env.imageFails).err = none ∧
      runCopy env cf flags paths selected =
        runInfo env cf paths (copy_images selected flags.img_conv env.imageFails)) := by
  unfold runCopy
  cases hc : (copy_images selected flags.img_conv env.imageFails).err with
  | some e => exact Or.inl ⟨e, rfl, rfl⟩
  | none => exact Or.inr ⟨rfl, rfl⟩

theorem runInfo_shapes (env : Env) (cf : String) (paths : Paths) (cres : CopyResult) :
    (∃ e, copy_info (env.dirFiles.contains COMIC_INFO_XML) env.hasComicInfoRoot env.dims
        (cres.ops.map (fun op => op.2)) = .error e ∧
      runInfo env cf paths cres =
        (startEvs cf paths ++ copyEvs paths cres.ops ++
          [Event.renameFile cf paths.orig.file], .exn e)) ∨
    (∃ ir, copy_info (env.dirFiles.contains COMIC_INFO_XML) env.hasComicInfoRoot env.dims
        (cres.ops.map (fun op => op.2)) = .ok ir ∧
      runInfo env cf paths cres =
        runCompress env paths
          (startEvs cf paths ++ copyEvs paths cres.ops ++
           [Event.renameFile cf paths.orig.file]) ir) := by
  unfold runInfo
  cases hi : copy_info (env.dirFiles.contains COMIC_INFO_XML) env.hasComicInfoRoot env.dims
      (cres.ops.map (fun op => op.2)) with
  | error e => exact Or.inl ⟨e, rfl, rfl⟩
  | ok ir => exact Or.inr ⟨ir, rfl, rfl⟩

theorem runCompress_shapes (env : Env) (paths : Paths) (tr1 : List Event) (ir : InfoResult) :
    (∃ e, (compress env.existsAtCompress ir.files).err = some e ∧
      runCompress env paths tr1 ir =
        (tr1 ++ infoEvs paths ir ++ [Event.writeArchive paths.new.file], .exn e)) ∨
    ((compress env.existsAtCompress ir.files).err = none ∧
      runCompress env paths tr1 ir =
        (tr1 ++ infoEvs paths ir ++
          [Event.writeArchive paths.new.file, Event.deleteTree paths.temp], .ok)) := by
  unfold runCompress
  cases hz : (compress env.existsAtCompress ir.files).err with
  | some e => exact Or.inl ⟨e, rfl, rfl⟩
  | none => exact Or.inr ⟨rfl, rfl⟩

/-- Every execution of `main` (on a parsable path) takes one of seven
shapes: extraction failure, classification exception, one of the three
validation aborts, copy failure, metadata failure, compression failure,
or full success.  Each shape fixes the event trace and the outcome. -/
theorem main_shapes (env : Env) (cf : String) (flags : Flags) (paths : Paths)
    (hp : get_paths cf = .ok paths) :
    (env.extractOk = false ∧
      main env cf flags = (startEvs cf paths, .exn .calledProcessError)) ∨
    (∃ e, get_images env.dirFiles flags.img_filter = .error e ∧
      main env cf flags = (startEvs cf paths, .exn e)) ∨
    (∃ m, main env cf flags =
      (startEvs cf paths ++ [Event.deleteTree paths.temp], .sysExit m)) ∨
    (∃ images e, get_images env.dirFiles flags.img_filter = .ok images ∧
      (cresOf env flags images).err = some e ∧
      main env cf flags =
        (startEvs cf paths ++ copyEvs paths (cresOf env flags images).ops, .exn e)) ∨
    (∃ images e, get_images env.dirFiles flags.img_filter = .ok images ∧
      (cresOf env flags images).err = none ∧
      infoOf env (cresOf env flags images) = .error e ∧
      main env cf flags =
        (startEvs cf paths ++ copyEvs paths (cresOf env flags images).ops ++
          [Event.renameFile cf paths.orig.file], .exn e)) ∨
    (∃ images ir e, get_images env.dirFiles flags.img_filter = .ok images ∧
      (cresOf env flags images).err = none ∧
      infoOf env (cresOf env flags images) = .ok ir ∧
      (compress env.existsAtCompress ir.files).err = some e ∧
      main env cf flags =
        (startEvs cf paths ++ copyEvs paths (cresOf env flags images).ops ++
          [Event.renameFile cf paths.orig.file] ++ infoEvs paths ir ++
          [Event.writeArchive paths.new.file], .exn e)) ∨
    (∃ images ir, get_images env.dirFiles flags.img_filter = .ok images ∧
      (cresOf env flags images).err = none ∧
      infoOf env (cresOf env flags images) = .ok ir ∧
      (compress env.existsAtCompress ir.files).err = none ∧
      main env cf flags =
        (startEvs cf paths ++ copyEvs paths (cresOf env flags images).ops ++
          [Event.renameFile cf paths.orig.file] ++ infoEvs paths ir ++
          [Event.writeArchive paths.new.file, Event.deleteTree paths.temp], .ok)) := by
  cases henv : env.extractOk with
  | false => exact Or.inl ⟨rfl, main_eq_extract_fail env cf flags paths hp henv⟩
  | true =>
    cases hgi : get_images env.dirFiles flags.img_filter with
    | error e =>
      exact Or.inr (Or.inl ⟨e, rfl, main_eq_classify_fail env cf flags paths e hp henv hgi⟩)
    | ok images =>
      have hmv := main_eq_runValidate env cf flags paths images hp henv hgi
      rcases runValidate_shapes env cf flags paths images with ⟨m, hv⟩ | hv
      · exact Or.inr (Or.inr (Or.inl ⟨m, hmv.trans hv⟩))
      · rcases runCopy_shapes env cf flags paths
            (get_image_list images flags.img_multi flags.copy_only) with
          ⟨e, hce, hc⟩ | ⟨hce, hc⟩
        · exact Or.inr (Or.inr (Or.inr (Or.inl
            ⟨images, e, rfl, hce, (hmv.trans hv).trans hc⟩)))
        · rcases runInfo_shapes env cf paths
              (copy_images (get_image_list images flags.img_multi flags.copy_only)
                flags.img_conv env.imageFails) with
            ⟨e, hie, hi⟩ | ⟨ir, hie, hi⟩
          · exact Or.inr (Or.inr (Or.inr (Or.inr (Or.inl
              ⟨images, e, rfl, hce, hie, ((hmv.trans hv).trans hc).trans hi⟩))))
          · rcases runCompress_shapes env paths
                (startEvs cf paths ++
                  copyEvs paths
                    (copy_images (get_image_list images flags.img_multi flags.copy_only)
                      flags.img_conv env.imageFails).ops ++
                  [Event.renameFile cf paths.orig.file]) ir with
              ⟨e, hze, hz⟩ | ⟨hze, hz⟩
            · exact Or.inr (Or.inr (Or.inr (Or.inr (Or.inr (Or.inl
                ⟨images, ir, e, rfl, hce, hie, hze,
                 (((hmv.trans hv).trans hc).trans hi).trans hz⟩)))))
            · exact Or.inr (Or.inr (Or.inr (Or.inr (Or.inr (Or.inr
                ⟨images, ir, rfl, hce, hie, hze,
                 (((hmv.trans hv).trans hc).trans hi).trans hz⟩)))))

/-- Folding the temp-alive tracker over a trace ending in a deletion of
the temp root yields false. -/
theorem tempTreeAlive_delete_last (temp : String) (l : List Event) :
    tempTreeAlive temp (l ++ [Event.deleteTree temp]) = false := by
  unfold tempTreeAlive
  rw [List.foldl_append]
  simp

/-- Claim C3 counterexample: when the external extraction tool fails,
the run raises CalledProcessError after `_create_temp` recreated the
working directories, and no cleanup happens — the temp tree is still
alive at exit, so cleanup is not guaranteed on every exit path. -/
theorem temp_left_behind_on_extract_failure_cx :
    (main ⟨false, [], (fun _ => false), false, (fun _ => (0, 0)), (fun _ => true)⟩
        "/books/x.cbz" ⟨none, none, false, false⟩).2 = .exn .calledProcessError ∧
    tempTreeAlive "/tmp/ej-comic-fix/x"
      (main ⟨false, [], (fun _ => false), false, (fun _ => (0, 0)), (fun _ => true)⟩
        "/books/x.cbz" ⟨none, none, false, false⟩).1 = true := by
  exact ⟨rfl, rfl⟩

/-- Claim C3 amended: the temp working tree is deleted before control
returns on the success path and on the three validation aborts (the
`SystemExit` paths: no images, ambiguous formats, empty copy-only
selection); the exception paths — extraction failure, classification
exception, page copy/conversion failure, metadata failure, compression
failure — propagate without cleanup (see the counterexample). -/
theorem cleanup_on_success_and_validation_aborts (env : Env) (cf : String)
    (flags : Flags) (paths : Paths) (hp : get_paths cf = .ok paths)
    (hout : (main env cf flags).2 = .ok ∨ ∃ m, (main env cf flags).2 = .sysExit m) :
    tempTreeAlive paths.temp (main env cf flags).1 = false := by
  rcases main_shapes env cf flags paths hp with
    ⟨_, hm⟩ | ⟨e, _, hm⟩ | ⟨m, hm⟩ | ⟨images, e, _, _, hm⟩ |
    ⟨images, e, _, _, _, hm⟩ | ⟨images, ir, e, _, _, _, _, hm⟩ |
    ⟨images, ir, _, _, _, _, hm⟩
  · rw [hm] at hout
    rcases hout with h | ⟨m, h⟩ <;> simp at h
  · rw [hm] at hout
    rcases hout with h | ⟨m, h⟩ <;> simp at h
  · rw [hm]
    exact tempTreeAlive_delete_last paths.temp (startEvs cf paths)
  · rw [hm] at hout
    rcases hout with h | ⟨m, h⟩ <;> simp at h
  · rw [hm] at hout
    rcases hout with h | ⟨m, h⟩ <;> simp at h
  · rw [hm] at hout
    rcases hout with h | ⟨m, h⟩ <;> simp at h
  · rw [hm]
    have hsplit :
        startEvs cf paths ++ copyEvs paths (cresOf env flags images).ops ++
          [Event.renameFile cf paths.orig.file] ++ infoEvs paths ir ++
          [Event.writeArchive paths.new.file, Event.deleteTree paths.temp] =
        (startEvs cf paths ++ copyEvs paths (cresOf env flags images).ops ++
          [Event.renameFile cf paths.orig.file] ++ infoEvs paths ir ++
          [Event.writeArchive paths.new.file]) ++ [Event.deleteTree paths.temp] := by
      simp
    rw [hsplit]
    exact tempTreeAlive_delete_last paths.temp _

/-- Witness for claim C3's amended theorem: a successful run cleans the
temp tree. -/
theorem cleanup_on_success_and_validation_aborts_witness :
    (main ⟨true, ["page1.jpg"], (fun _ => false), false, (fun _ => (10, 20)), (fun _ => true)⟩
        "/books/x.cbz" ⟨none, none, false, false⟩).2 = Outcome.ok ∧
    tempTreeAlive "/tmp/ej-comic-fix/x"
      (main ⟨true, ["page1.jpg"], (fun _ => false), false, (fun _ => (10, 20)), (fun _ => true)⟩
        "/books/x.cbz" ⟨none, none, false, false⟩).1 = false := by
  refine ⟨rfl, ?_⟩
  have hpw : get_paths "/books/x.cbz" = .ok
      ⟨"/books", "cbz", "x", "/books/x.cbz.NoComicInfo",
       ⟨"/books/x.cbz", "/tmp/ej-comic-fix/x/new", "/tmp/ej-comic-fix/x/new/ComicInfo.xml"⟩,
       ⟨"/books/x.orig.cbz", "/tmp/ej-comic-fix/x/orig", "/tmp/ej-comic-fix/x/orig/ComicInfo.xml"⟩,
       "/tmp/ej-comic-fix/x"⟩ := rfl
  exact cleanup_on_success_and_validation_aborts
    ⟨true, ["page1.jpg"], (fun _ => false), false, (fun _ => (10, 20)), (fun _ => true)⟩
    "/books/x.cbz" ⟨none, none, false, false⟩ _ hpw (Or.inl rfl)

/-- Claim C1: the original archive is renamed to its `.orig.<ext>` path
only after the page copy/conversion step completed successfully, and
never before: the only rename any run performs is that aside-rename;
when it appears in the trace, classification succeeded, the whole copy
step succeeded, every copy operation's event precedes the rename and no
copy event follows it; on every validation abort (`SystemExit`) nothing
in the trace writes to, creates, renames or deletes the original path;
and the original is never deleted — every delete event of any run
targets the temp tree only.  (The hypotheses assert that the original
path does not collide with the temp working directories, which is how
`_get_paths` lays paths out.) -/
theorem rename_only_after_successful_copy (env : Env) (cf : String) (flags : Flags)
    (paths : Paths) (hp : get_paths cf = .ok paths)
    (h1 : cf ≠ paths.temp) (h2 : cf ≠ paths.new.extracted)
    (h3 : cf ≠ paths.orig.extracted) :
    (∀ s d, Event.renameFile s d ∈ (main env cf flags).1 →
      s = cf ∧ d = paths.orig.file) ∧
    (Event.renameFile cf paths.orig.file ∈ (main env cf flags).1 →
      ∃ images pre post,
        get_images env.dirFiles flags.img_filter = .ok images ∧
        (cresOf env flags images).err = none ∧
        (main env cf flags).1 = pre ++ Event.renameFile cf paths.orig.file :: post ∧
        (∀ s d, Event.copyPage s d ∉ post) ∧
        (∀ op ∈ (cresOf env flags images).ops,
          Event.copyPage (joinPath paths.orig.extracted op.1)
            (joinPath paths.new.extracted op.2) ∈ pre)) ∧
    (∀ m, (main env cf flags).2 = .sysExit m →
      ∀ ev ∈ (main env cf flags).1, touches cf ev = false) ∧
    (∀ p, Event.deleteTree p ∈ (main env cf flags).1 → p = paths.temp) := by
  rcases main_shapes env cf flags paths hp with
    ⟨_, hm⟩ | ⟨e, hgi, hm⟩ | ⟨m, hm⟩ | ⟨images, e, hgi, hce, hm⟩ |
    ⟨images, e, hgi, hce, hie, hm⟩ | ⟨images, ir, e, hgi, hce, hie, hze, hm⟩ |
    ⟨images, ir, hgi, hce, hie, hze, hm⟩
  · refine ⟨?_, ?_, ?_, ?_⟩
    · intro s d hmem
      rw [hm] at hmem
      simp [startEvs] at hmem
    · intro hmem
      rw [hm] at hmem
      simp [startEvs] at hmem
    · intro m hout
      rw [hm] at hout
      simp at hout
    · intro p hmem
      rw [hm] at hmem
      simp [startEvs] at hmem
      exact hmem
  · refine ⟨?_, ?_, ?_, ?_⟩
    · intro s d hmem
      rw [hm] at hmem
      simp [startEvs] at hmem
    · intro hmem
      rw [hm] at hmem
      simp [startEvs] at hmem
    · intro m hout
      rw [hm] at hout
      simp at hout
    · intro p hmem
      rw [hm] at hmem
      simp [startEvs] at hmem
      exact hmem
  · refine ⟨?_, ?_, ?_, ?_⟩
    · intro s d hmem
      rw [hm] at hmem
      simp [startEvs] at hmem
    · intro hmem
      rw [hm] at hmem
      simp [startEvs] at hmem
    · intro m hout ev hev
      rw [hm] at hev
      simp only [startEvs, List.mem_append, List.mem_cons, List.mem_singleton,
        List.not_mem_nil, or_false] at hev
      rcases hev with (rfl | rfl | rfl | rfl) | rfl <;>
        simp [touches, Ne.symm h1, Ne.symm h2, Ne.symm h3]
    · intro p hmem
      rw [hm] at hmem
      simp [startEvs] at hmem
      exact hmem
  · refine ⟨?_, ?_, ?_, ?_⟩
    · intro s d hmem
      rw [hm] at hmem
      simp [startEvs, copyEvs] at hmem
    · intro hmem
      rw [hm] at hmem
      simp [startEvs, copyEvs] at hmem
    · intro m hout
      rw [hm] at hout
      simp at hout
    · intro p hmem
      rw [hm] at hmem
      simp [startEvs, copyEvs] at hmem
      exact hmem
  · refine ⟨?_, ?_, ?_, ?_⟩
    · intro s d hmem
      rw [hm] at hmem
      simp [startEvs, copyEvs] at hmem
      exact hmem
    · intro _
      refine ⟨images, startEvs cf paths ++ copyEvs paths (cresOf env flags images).ops,
        [], hgi, hce, ?_, ?_, ?_⟩
      · rw [hm]
      · intro s d hmem
        simp at hmem
      · intro op hop
        exact List.mem_append_right _ (List.mem_map_of_mem _ hop)
    · intro m hout
      rw [hm] at hout
      simp at hout
    · intro p hmem
      rw [hm] at hmem
      simp [startEvs, copyEvs] at hmem
      exact hmem
  · refine ⟨?_, ?_, ?_, ?_⟩
    · intro s d hmem
      rw [hm] at hmem
      cases hti : ir.touchedNoInfo <;>
        simp [startEvs, copyEvs, infoEvs, hti] at hmem <;> exact hmem
    · intro _
      refine ⟨images, startEvs cf paths ++ copyEvs paths (cresOf env flags images).ops,
        infoEvs paths ir ++ [Event.writeArchive paths.new.file], hgi, hce, ?_, ?_, ?_⟩
      · rw [hm]
        simp
      · intro s d hmem
        cases hti : ir.touchedNoInfo <;> simp [infoEvs, hti] at hmem
      · intro op hop
        exact List.mem_append_right _ (List.mem_map_of_mem _ hop)
    · intro m hout
      rw [hm] at hout
      simp at hout
    · intro p hmem
      rw [hm] at hmem
      cases hti : ir.touchedNoInfo <;>
        simp [startEvs, copyEvs, infoEvs, hti] at hmem <;> exact hmem
  · refine ⟨?_, ?_, ?_, ?_⟩
    · intro s d hmem
      rw [hm] at hmem
      cases hti : ir.touchedNoInfo <;>
        simp [startEvs, copyEvs, infoEvs, hti] at hmem <;> exact hmem
    · intro _
      refine ⟨images, startEvs cf paths ++ copyEvs paths (cresOf env flags images).ops,
        infoEvs paths ir ++ [Event.writeArchive paths.new.file,
          Event.deleteTree paths.temp], hgi, hce, ?_, ?_, ?_⟩
      · rw [hm]
        simp
      · intro s d hmem
        cases hti : ir.touchedNoInfo <;> simp [infoEvs, hti] at hmem
      · intro op hop
        exact List.mem_append_right _ (List.mem_map_of_mem _ hop)
    · intro m hout
      rw [hm] at hout
      simp at hout
    · intro p hmem
      rw [hm] at hmem
      cases hti : ir.touchedNoInfo <;>
        simp [startEvs, copyEvs, infoEvs, hti] at hmem <;>
        exact hmem

/-- Witness for claim C1's theorem at a concrete successful run: the
paths parse as stated, the original path is none of the temp
directories, and (instantiating the theorem's last conjunct) every
delete of that run targets the temp tree only. -/
theorem rename_only_after_successful_copy_witness :
    (get_paths "/books/x.cbz" = .ok
        ⟨"/books", "cbz", "x", "/books/x.cbz.NoComicInfo",
         ⟨"/books/x.cbz", "/tmp/ej-comic-fix/x/new", "/tmp/ej-comic-fix/x/new/ComicInfo.xml"⟩,
         ⟨"/books/x.orig.cbz", "/tmp/ej-comic-fix/x/orig", "/tmp/ej-comic-fix/x/orig/ComicInfo.xml"⟩,
         "/tmp/ej-comic-fix/x"⟩ ∧
      "/books/x.cbz" ≠ "/tmp/ej-comic-fix/x" ∧
      "/books/x.cbz" ≠ "/tmp/ej-comic-fix/x/new" ∧
      "/books/x.cbz" ≠ "/tmp/ej-comic-fix/x/orig") ∧
    (∀ p, Event.deleteTree p ∈
        (main ⟨true, ["page1.jpg"], (fun _ => false), false, (fun _ => (10, 20)), (fun _ => true)⟩
          "/books/x.cbz" ⟨none, none, false, false⟩).1 →
      p = "/tmp/ej-comic-fix/x") :=
  ⟨⟨rfl, by decide, by decide, by decide⟩,
   (rename_only_after_successful_copy
     ⟨true, ["page1.jpg"], (fun _ => false), false, (fun _ => (10, 20)), (fun _ => true)⟩
     "/books/x.cbz" ⟨none, none, false, false⟩
     ⟨"/books", "cbz", "x", "/books/x.cbz.NoComicInfo",
      ⟨"/books/x.cbz", "/tmp/ej-comic-fix/x/new", "/tmp/ej-comic-fix/x/new/ComicInfo.xml"⟩,
      ⟨"/books/x.orig.cbz", "/tmp/ej-comic-fix/x/orig", "/tmp/ej-comic-fix/x/orig/ComicInfo.xml"⟩,
      "/tmp/ej-comic-fix/x"⟩
     rfl (by decide) (by decide) (by decide)).2.2.2⟩

/-- Claim C10: when the original manifest exists and its parsed document
carries the ComicInfo root, the metadata rewriter on an empty pages list
raises IndexError at the front-cover subscript instead of writing a
manifest with an empty page list; and the input is reachable through the
orchestrator: on a directory whose only jpeg is dropped by page
filtering, types stays 1 (counted before filtering), every bucket is
empty, no abort fires, and the run ends in that IndexError. -/
theorem copy_info_empty_pages_index_error :
    (∀ dims : String → Nat × Nat, copy_info true true dims [] = .error .indexError) ∧
    get_images ["cover.jpg", "ComicInfo.xml"] true = .ok ⟨[], [], [], 1⟩ ∧
    (main ⟨true, ["cover.jpg", "ComicInfo.xml"], (fun _ => false), true,
        (fun _ => (100, 200)), (fun _ => true)⟩
      "/books/x.cbz" ⟨none, none, true, false⟩).2 = .exn .indexError :=
  ⟨fun _ => rfl, rfl, rfl⟩

end Comic
